import Mathlib

/-!
Verification of the activitylog cog (`activitylog.py`): rotation naming,
attachment handling, the log-handle cache, write gating, and the history
backfill crawler, shallowly embedded as executable Lean definitions.
-/

set_option autoImplicit false

namespace ActivityLog

/-! ### Calendar model (proleptic Gregorian, as Python `datetime`) -/

/-- Gregorian leap-year test, as used by Python `datetime`. -/
def isLeap (y : Nat) : Bool :=
  (y % 4 == 0 && y % 100 != 0) || y % 400 == 0

/-- Number of days in month `m` (1-based) of year `y`. -/
def daysInMonth (y m : Nat) : Nat :=
  if m = 2 then (if isLeap y then 29 else 28)
  else if m = 4 ∨ m = 6 ∨ m = 9 ∨ m = 11 then 30
  else 31

/-- Days in the months strictly before month `m` (1-based) of year `y`. -/
def daysBeforeMonth (y m : Nat) : Nat :=
  (List.range (m - 1)).foldl (fun acc i => acc + daysInMonth y (i + 1)) 0

/-- Python `date.toordinal`: proleptic Gregorian ordinal, 0001-01-01 maps to 1. -/
def toordinal (y m d : Nat) : Nat :=
  365 * (y - 1) + (y - 1) / 4 - (y - 1) / 100 + (y - 1) / 400 + daysBeforeMonth y m + d

/-- A Python `datetime` value (microseconds dropped: the code always zeroes them). -/
structure PyDateTime where
  year : Nat
  month : Nat
  day : Nat
  hour : Nat
  minute : Nat
  second : Nat
deriving DecidableEq, Repr

/-- Python `datetime.weekday()`: Monday = 0 ... Sunday = 6. -/
def weekday (t : PyDateTime) : Nat :=
  (toordinal t.year t.month t.day - 1) % 7

/-- Python `datetime.replace` with a new day (and optionally month), zeroing the
time fields, exactly as every call in `format_rotation_string` does.  Returns
`none` when the requested day is out of range for the month (Python raises
`ValueError` there). -/
def pyReplace (t : PyDateTime) (newMonth : Option Nat) (newDay : Option Int) : Option PyDateTime :=
  let m := newMonth.getD t.month
  let d : Int := newDay.getD (t.day : Int)
  if 1 ≤ m ∧ m ≤ 12 ∧ 1 ≤ d ∧ d ≤ (daysInMonth t.year m : Int) then
    some ⟨t.year, m, d.toNat, 0, 0, 0⟩
  else
    none

/-- The rotation codes stored by `logset rotation` (stored as the strings
d / w / m / y; `None` is modelled as `Option.none` at use sites). -/
inductive RotationCode
  | d
  | w
  | m
  | y
deriving DecidableEq, Repr

/-- Zero-padded 2-digit decimal, as `strftime` `%m` / `%d` / `%H` etc. -/
def pad2 (n : Nat) : String :=
  if n < 10 then "0" ++ toString n else toString n

/-- Zero-padded 4-digit decimal, as `strftime` `%Y`. -/
def pad4 (n : Nat) : String :=
  if n < 10 then "000" ++ toString n
  else if n < 100 then "00" ++ toString n
  else if n < 1000 then "0" ++ toString n
  else toString n

/-- `strftime('%Y%m%d')`. -/
def strftimeYmd (t : PyDateTime) : String :=
  pad4 t.year ++ pad2 t.month ++ pad2 t.day

/-- The `timestamp.replace(...)` step of `ActivityLogger.format_rotation_string`
for each rotation code: zero the time fields and move the day (and month) to
the bucket start.  For weekly rotation the new day is
`timestamp.day - timestamp.weekday()`, which Python rejects (ValueError) when
it is less than 1. -/
def rotationReplace (timestamp : PyDateTime) (code : RotationCode) : Option PyDateTime :=
  match code with
  | .y => pyReplace timestamp (some 1) (some 1)
  | .m => pyReplace timestamp none (some 1)
  | .w => pyReplace timestamp none (some ((timestamp.day : Int) - (weekday timestamp : Int)))
  | .d => pyReplace timestamp none none

/-- `ActivityLogger.format_rotation_string(timestamp, rotation_code, filename)`.
`none` as result models the `ValueError` escaping from `datetime.replace`.
A falsy (`None` or empty) filename returns just the period spec; a falsy
rotation code returns the filename (or the empty string). -/
def format_rotation_string (timestamp : PyDateTime) (rotation_code : Option RotationCode)
    (filename : Option String) : Option String :=
  match rotation_code with
  | none => some ((filename.getD ""))
  | some code =>
    match rotationReplace timestamp code with
    | none => none
    | some start =>
      let spec := strftimeYmd start ++
        (match code with
          | .w => "--P7D"
          | .d => "--P1D"
          | .m => "--P1M"
          | .y => "--P1Y")
      some (match filename with
        | some f => if f = "" then spec else spec ++ "_" ++ f
        | none => spec)

/-! ### Attachment file-name derivation (`ActivityLogger.process_attachment`) -/

/-- Python slice index normalisation for a sequence of length `len`: negative
indices count from the end, and both directions clamp into `[0, len]`. -/
def pyIdx (i : Int) (len : Nat) : Nat :=
  if i < 0 then ((len : Int) + i).toNat else min i.toNat len

/-- Python `s[:j]` on a string given as a character list. -/
def pySliceTo (s : List Char) (j : Int) : List Char :=
  s.take (pyIdx j s.length)

/-- Python `s[i:]` on a string given as a character list. -/
def pySliceFrom (s : List Char) (i : Int) : List Char :=
  s.drop (pyIdx i s.length)

/-- The file-name part of `ActivityLogger.process_attachment`: from the
attachment id and the original attachment name, derive the final file name and
the truncated flag.  Mirrors the source: `target_len = 255 - len(aid) - 4`,
`part_a = target_len // 2` (Python floor division), `part_b = target_len -
part_a`, and the truncated name is
`aid + underscore + aname[:part_a] + ellipsis + aname[-part_b:]`. -/
def attachmentFileName (aid aname : List Char) : List Char × Bool :=
  let filename := aid ++ ['_'] ++ aname
  if 255 < filename.length then
    let target_len : Int := 255 - (aid.length : Int) - 4
    let part_a : Int := Int.fdiv target_len 2
    let part_b : Int := target_len - part_a
    (aid ++ ['_'] ++ pySliceTo aname part_a ++ ['.', '.', '.'] ++ pySliceFrom aname (-part_b),
      true)
  else
    (filename, false)

/-- Modelled from the claim text, not from the source: the truncated name when
the surviving budget is split as close to evenly as possible with the left half
(the kept head of the original name) receiving the extra character when the
budget is odd.  Used only to compare the source behaviour against the claim. -/
def claimLeftFavoredName (aid aname : List Char) : List Char :=
  let budget := 255 - aid.length - 4
  let pre := budget - budget / 2
  let suf := budget / 2
  aid ++ ['_'] ++ aname.take pre ++ ['.', '.', '.'] ++ aname.drop (aname.length - suf)

/-! ### The log-handle cache (`ActivityLogger.gethandle`)

`self.handles` is a Python dict from path to `LogHandle`; dicts preserve
insertion order, and a key deleted and re-added moves to the end.  A handle is
modelled by its `(path, time)` pair, where `time` is the `LogHandle.time`
field (`lastActivity`); opening and closing of the OS file are not represented
beyond the bookkeeping, and close errors are swallowed by the source
(`try: close() except: pass`), so closing has no effect in the model. -/

abbrev Handles := List (String × Nat)

/-- Dict lookup `self.handles[path]` (returning the handle time). -/
def lookupTime (path : String) : Handles → Option Nat
  | [] => none
  | e :: rest => if e.1 = path then some e.2 else lookupTime path rest

/-- `del self.handles[path]`: drop the (unique) entry with the given key. -/
def removeKey (path : String) : Handles → Handles
  | [] => []
  | e :: rest => if e.1 = path then rest else e :: removeKey path rest

/-- `sorted(self.handles.items(), key=lambda x: x[1].time)[0]`: the first
entry (in dict order) attaining the minimal time — Python sort is stable, so
the head of the sorted list is the earliest-inserted minimal entry. -/
def oldestEntry : Handles → Option (String × Nat)
  | [] => none
  | e :: rest =>
    match oldestEntry rest with
    | none => some e
    | some a => if a.2 < e.2 then some a else some e

/-- Result of `gethandle`: the handle handed to the caller, the new cache
contents, and the entries evicted by the capacity check. -/
structure GetResult where
  handle : String × Nat
  handles : Handles
  evicted : List (String × Nat)
deriving DecidableEq, Repr

/-- The `else` branch of `ActivityLogger.gethandle` (path not in the dict):
evict the oldest entry when the cache is at the 256 capacity, then create the
fresh handle (recorded with time `newTime`, modelling mtime-or-now) and insert
it at the end of the dict. -/
def gethandleNew (newTime : Nat) (path : String) (hs : Handles) : GetResult :=
  let step : Handles × List (String × Nat) :=
    if 256 ≤ hs.length then
      match oldestEntry hs with
      | some old => (removeKey old.1 hs, [old])
      | none => (hs, [])
    else (hs, [])
  ⟨(path, newTime), step.1 ++ [(path, newTime)], step.2⟩

/-- `ActivityLogger.gethandle(path)`: `fs` models `os.path.exists`.  A cached
handle whose file still exists is returned as-is; a stale one (file gone) is
closed (errors swallowed), deleted, and the call recurses — the recursion
necessarily lands in the not-cached branch, which is inlined here. -/
def gethandle (fs : String → Bool) (newTime : Nat) (path : String) (hs : Handles) : GetResult :=
  match lookupTime path hs with
  | some t =>
    if fs path then ⟨(path, t), hs, []⟩
    else gethandleNew newTime path (removeKey path hs)
  | none => gethandleNew newTime path hs

/-- Acquire a sequence of `(path, newTime)` requests in order, collecting all
evicted entries (used for the 257-distinct-paths scenario). -/
def acquireAll (fs : String → Bool) (reqs : List (String × Nat)) (hs : Handles) :
    Handles × List (String × Nat) :=
  reqs.foldl (fun acc r =>
    let g := gethandle fs r.2 r.1 acc.1
    (g.handles, acc.2 ++ g.evicted)) (hs, [])

/-- Distinct concrete path names for the capacity scenarios. -/
def pathName (i : Nat) : String :=
  String.mk (List.replicate i 'a')

/-- 256 distinct cached paths with times 0..255 (insertion order), for the
capacity scenarios: also the request list whose acquisition from an empty
cache fills it exactly. -/
def paths256 : List (String × Nat) :=
  (List.range 256).map (fun i => (pathName i, i))

/-! ### Settings, targets, and the write gate (`ActivityLogger.should_log` / `log`) -/

/-- Per-server block of the settings JSON: the keys `all`, `events`, `voice`,
plus one boolean per channel id.  `Option` distinguishes an absent key from a
stored `false`, matching `dict.get(key, fallback)`. -/
structure ServerSettings where
  all : Option Bool
  events : Option Bool
  voice : Option Bool
  channels : List (String × Bool)
deriving DecidableEq, Repr

/-- The settings JSON: global flags plus the per-server blocks. -/
structure Settings where
  everything : Option Bool
  dflt : Option Bool
  direct : Option Bool
  attachments : Option Bool
  rotation : Option RotationCode
  servers : List (String × ServerSettings)
deriving DecidableEq, Repr

/-- Association-list lookup, the dict access used on `settings` sub-tables. -/
def alistGet {α : Type} (k : String) : List (String × α) → Option α
  | [] => none
  | e :: rest => if e.1 = k then some e.2 else alistGet k rest

/-- Discord channel kinds distinguished by `should_log`. -/
inductive ChannelKind
  | text
  | voice
deriving DecidableEq, Repr

/-- A log location: `discord.Server`, `discord.Channel` (carrying its id, name,
owning server id, and kind), `discord.PrivateChannel`, or any other object. -/
inductive Location
  | server (id : String)
  | channel (id name serverId : String) (kind : ChannelKind)
  | privateChannel (id : String)
  | other
deriving DecidableEq, Repr

/-- `ActivityLogger.should_log(location)`.  The source returns `None` (falsy)
when a server/channel has no settings block and when it falls through the
channel branch; both are modelled as `false`. -/
def should_log (s : Settings) (location : Location) : Bool :=
  if s.everything.getD false then true
  else
    let dflt := s.dflt.getD false
    match location with
    | .server id =>
      match alistGet id s.servers with
      | some loc => loc.all.getD false || loc.events.getD dflt
      | none => false
    | .channel id _ serverId kind =>
      match alistGet serverId s.servers with
      | some loc =>
        loc.all.getD false || (alistGet id loc.channels).getD dflt ||
          (if kind = .voice then loc.voice.getD false else false)
      | none => false
    | .privateChannel _ => s.direct.getD dflt
    | .other => false

/-- The in-memory state of the logger relevant to `log`: the settings, the
unload lock, and the handle cache. -/
structure LoggerState where
  settings : Settings
  lock : Bool
  handles : Handles
deriving DecidableEq, Repr

/-- Result of `ActivityLogger.log`: either the `ValueError` escaping from
`format_rotation_string` (weekly rotation, Monday in previous month), or the
updated state together with the list of `(path, line)` writes performed. -/
inductive LogResult
  | error
  | ok (st : LoggerState) (writes : List (String × String))
deriving DecidableEq, Repr

/-- `text.replace(chr(10), backslash-n)`: escape newlines so each entry is one
physical line. -/
def escapeNewlines (text : String) : String :=
  text.replace "\n" "\\n"

/-- `strftime(TIMESTAMP_FORMAT)` with format `%Y-%m-%d %X`. -/
def strftimeTimestamp (t : PyDateTime) : String :=
  pad4 t.year ++ "-" ++ pad2 t.month ++ "-" ++ pad2 t.day ++ " " ++
    pad2 t.hour ++ ":" ++ pad2 t.minute ++ ":" ++ pad2 t.second

/-- Python `path.insert(-1, x)`: insert just before the last element. -/
def insertBeforeLast (x : String) (l : List String) : List String :=
  l.take (l.length - 1) ++ [x] ++ l.drop (l.length - 1)

/-- The last path component (`path[-1]`); paths built by `log` are nonempty. -/
def lastComp (l : List String) : String :=
  (l.getLast?).getD ""

/-- `path[-1] = v`. -/
def replaceLast (v : String) (l : List String) : List String :=
  l.take (l.length - 1) ++ [v]

/-- `handle.write` sets `LogHandle.time` to now; update the cache entry. -/
def writeTouch (now : Nat) (path : String) : Handles → Handles
  | [] => []
  | e :: rest => if e.1 = path then (e.1, now) :: rest else e :: writeTouch now path rest

/-- The tail of `ActivityLogger.log` once a path/entry pair exists for the
location: insert the subfolder, escape the text, apply rotation to the final
path component (propagating its `ValueError` as `.error`), then acquire the
handle and append exactly one line. -/
def logFinish (fs : String → Bool) (now : Nat) (st : LoggerState) (text : String)
    (timestamp : PyDateTime) (subfolder : Option String) (path0 entry1 : List String) :
    LogResult :=
  let path1 :=
    match subfolder with
    | some sub => if sub = "" then path0 else insertBeforeLast sub path0
    | none => path0
  let entry := entry1 ++ [escapeNewlines text]
  let rotated : Option (List String) :=
    match st.settings.rotation with
    | none => some path1
    | some code =>
      match format_rotation_string timestamp (some code) (some (lastComp path1)) with
      | some newLast => some (replaceLast newLast path1)
      | none => none
  match rotated with
  | none => .error
  | some path =>
    let fname := String.intercalate "/" path
    let g := gethandle fs now fname st.handles
    let line := String.intercalate " " entry ++ "\n"
    .ok { st with handles := writeTouch now g.handle.1 g.handles } [(fname, line)]

/-- `ActivityLogger.log(location, text, timestamp, force, subfolder)`.
`fs` models `os.path.exists` and `now` the current clock, both consumed by
`gethandle`/`LogHandle.write`.  Returns the new state and the writes. -/
def log (fs : String → Bool) (now : Nat) (st : LoggerState) (location : Location)
    (text : String) (timestamp : PyDateTime) (force : Bool) (subfolder : Option String) :
    LogResult :=
  if st.lock || !(force || should_log st.settings location) then .ok st []
  else
    let base := ["data", "activitylogger"]
    let entry0 := [strftimeTimestamp timestamp]
    match location with
    | .server id =>
      logFinish fs now st text timestamp subfolder (base ++ [id, "server.log"]) entry0
    | .channel id name serverId _ =>
      logFinish fs now st text timestamp subfolder (base ++ [serverId, id ++ ".log"])
        (entry0 ++ ["#" ++ name])
    | .privateChannel id =>
      logFinish fs now st text timestamp subfolder (base ++ ["direct", id ++ ".log"]) entry0
    | .other => .ok st []

/-- The location kinds `log` has a path branch for. -/
def recognized : Location → Bool
  | .other => false
  | _ => true

/-- The rotation-related `replace` succeeds for this settings/timestamp pair
(no rotation configured, or `rotationReplace` does not raise). -/
def rotationOk (s : Settings) (timestamp : PyDateTime) : Bool :=
  match s.rotation with
  | none => true
  | some code => (rotationReplace timestamp code).isSome

/-- Settings with everything off and no per-server blocks. -/
def emptySettings : Settings :=
  ⟨none, none, none, none, none, []⟩

/-- A locked (unloaded) logger state, for the gate counterexample. -/
def lockedState : LoggerState :=
  ⟨emptySettings, true, []⟩

/-- An unlocked state with weekly rotation configured, for the rotation
counterexample. -/
def weeklyState : LoggerState :=
  ⟨{ emptySettings with rotation := some .w }, false, []⟩

/-! ### The backfill crawler (`ActivityLogger.fetch_task`) -/

/-- The `FetchStatus` enum of the source. -/
inductive FetchStatus
  | starting
  | fetching
  | cancelled
  | exception
  | completed
deriving DecidableEq, Repr

/-- One `update(...)` call of `fetch_task`: the count, status and channel
(channels are identified by a numeric id in the model). -/
structure Upd where
  count : Nat
  status : FetchStatus
  channel : Nat
deriving DecidableEq, Repr

/-- The `after=` cursor of `self.bot.logs_from`: the channel creation time at
first, then the last processed message. -/
inductive Cursor (ε : Type)
  | created
  | afterMsg (m : ε)

/-- The `async for message in logs_from(...)` body: process each message of a
page (`message_handler` with `force=True`), advance the cursor, emit a
`FETCHING` update with the pre-increment count, and increment.  An
`asyncio.CancelledError` fires at an await point; it is modelled by the
`cancel` predicate on the total number of messages processed so far in the
run, consulted at each message.  Returns (total, count, cursor, updates,
cancelled flag). -/
def processPage {ε : Type} (cancel : Nat → Bool) (ch : Nat) :
    List ε → Nat → Nat → Cursor ε → List Upd → Nat × Nat × Cursor ε × List Upd × Bool
  | [], total, count, cur, acc => (total, count, cur, acc, false)
  | m :: rest, total, count, cur, acc =>
    if cancel total then (total, count, cur, acc, true)
    else
      processPage cancel ch rest (total + 1) (count + 1) (Cursor.afterMsg m)
        (acc ++ [⟨count, .fetching, ch⟩])

/-- The `while True` page loop of `fetch_task` for one channel: request the
page after the cursor, process it, and stop when a page yields zero new
messages (`count == last_count`).  Fuel bounds the unbounded loop; `none`
means the fuel ran out.  Returns (total, count, updates, cancelled flag,
pages requested). -/
def channelLoop {ε : Type} (pages : Nat → Cursor ε → List ε) (cancel : Nat → Bool) (ch : Nat) :
    Nat → Cursor ε → Nat → Nat → List Upd → Option (Nat × Nat × List Upd × Bool × Nat)
  | 0, _, _, _, _ => none
  | fuel + 1, cur, total, count, acc =>
    match processPage cancel ch (pages ch cur) total count cur acc with
    | (total1, count1, _, acc1, true) => some (total1, count1, acc1, true, 1)
    | (total1, count1, cur1, acc1, false) =>
      if count1 = count then some (total1, count1, acc1, false, 1)
      else
        match channelLoop pages cancel ch fuel cur1 total1 count1 acc1 with
        | none => none
        | some (t, c, a, cn, p) => some (t, c, a, cn, p + 1)

/-- `ActivityLogger.fetch_task(channels, ...)`: per channel emit `STARTING`
with count 0, run the page loop, and emit `COMPLETED`; a cancellation emits
`CANCELLED` with the channel's partial count and ends the whole run, so later
channels are never started.  Returns the update trace and the total number of
history pages requested. -/
def fetch_task {ε : Type} (pages : Nat → Cursor ε → List ε) (cancel : Nat → Bool)
    (fuel : Nat) : List Nat → Nat → List Upd → Nat → Option (List Upd × Nat)
  | [], _, acc, pagesSoFar => some (acc, pagesSoFar)
  | ch :: rest, total, acc, pagesSoFar =>
    match channelLoop pages cancel ch fuel Cursor.created total 0 (acc ++ [⟨0, .starting, ch⟩]) with
    | none => none
    | some (total1, count1, acc1, cancelled, p) =>
      if cancelled then some (acc1 ++ [⟨count1, .cancelled, ch⟩], pagesSoFar + p)
      else fetch_task pages cancel fuel rest total1 (acc1 ++ [⟨count1, .completed, ch⟩])
        (pagesSoFar + p)

/-- A mock history source: the first page (from the channel creation cursor)
holds the five given events, every later page is empty. -/
def fivePages {ε : Type} (e1 e2 e3 e4 e5 : ε) : Nat → Cursor ε → List ε :=
  fun _ cur =>
    match cur with
    | Cursor.created => [e1, e2, e3, e4, e5]
    | Cursor.afterMsg _ => []

/-! ### Attachment fetching (`ActivityLogger.message_handler`, download block) -/

/-- A file-system side effect of the download block. -/
inductive FsOp
  | mkdir (dir : String)
  | transfer (url : String)
  | writeTmp (path : String)
  | rename (src dst : String)
deriving DecidableEq, Repr

/-- The attachment-download block at the end of `message_handler`: `fs` is the
set of existing file-system paths.  The directory is created when absent; if
the target file does not exist, the remote resource is transferred, written to
`aid + dot-tmp` in the directory, and the temp file is renamed onto the final
name; an existing target file makes the block a no-op (no re-download).
Returns the new file-system contents and the operations performed. -/
def fetchAttachment (fs : List String) (url dirPath aid filename : String) :
    List String × List FsOp :=
  let dl_path := dirPath ++ "/" ++ filename
  let tmp_path := dirPath ++ "/" ++ aid ++ ".tmp"
  let step : List String × List FsOp :=
    if dirPath ∈ fs then (fs, [])
    else (dirPath :: fs, [FsOp.mkdir dirPath])
  if dl_path ∈ step.1 then step
  else
    (dl_path :: (tmp_path :: step.1).erase tmp_path,
      step.2 ++ [FsOp.transfer url, FsOp.writeTmp tmp_path, FsOp.rename tmp_path dl_path])

/-- Number of remote transfers in an operation list. -/
def transferCount (ops : List FsOp) : Nat :=
  (ops.filter (fun o => match o with | FsOp.transfer _ => true | _ => false)).length

/-! ### Progress throttling (`format_fetch_line` / `fetch_callback`)

Times are in milliseconds; `EDIT_TIMEDELTA = timedelta(seconds=3)` is 3000. -/

/-- The `FetchCookie` of the source: run start time, time of the last status
edit (none before the first), running total, and the per-channel summary
lines of completed channels. -/
structure Cookie where
  start : Nat
  lastEdit : Option Nat
  totalMessages : Nat
  completedMessages : List String
deriving DecidableEq, Repr

/-- `ActivityLogger.format_fetch_line`: the status line to edit to, or `none`
when no edit should be pushed.  `exc` carries the exception type name and
message when present. -/
def format_fetch_line (now : Nat) (cookie : Cookie) (count : Nat) (status : FetchStatus)
    (exc : Option (String × String)) (channelName : String) : Option String :=
  let elapsed := now - (cookie.lastEdit.getD cookie.start)
  let base := "#" ++ channelName ++ ": "
  match status with
  | .starting => some (base ++ "initializing...")
  | .exception =>
    let s := base ++ "error after " ++ toString count ++ " messages."
    some (match exc with
      | some p => s ++ ": " ++ p.1 ++ ": " ++ p.2
      | none => s)
  | .cancelled => some (base ++ "cancelled after " ++ toString count ++ " messages.")
  | .completed => some (base ++ "fetched " ++ toString count ++ " messages.")
  | .fetching =>
    if 3000 < elapsed then some (base ++ toString count ++ " messages retrieved so far...")
    else none

/-- `ActivityLogger.fetch_callback`: returns the updated cookie and the status
edit pushed outward (`none` when no edit happened).  When an edit is pushed the
rows are the completed-channel summaries, the current line, then one pending
line per not-yet-started channel, and `last_edit` is set to now; a `COMPLETED`
update additionally accumulates the total and the channel summary line. -/
def fetch_callback (now : Nat) (cookie : Cookie) (pendingNames : List String) (count : Nat)
    (status : FetchStatus) (exc : Option (String × String)) (channelName : String) :
    Cookie × Option String :=
  let fl := format_fetch_line now cookie count status exc channelName
  let step : Cookie × Option String :=
    match fl with
    | some line =>
      let rows := cookie.completedMessages ++ [line] ++
        pendingNames.map (fun n => "#" ++ n ++ ": pending")
      ({ cookie with lastEdit := some now }, some (String.intercalate "\n" rows))
    | none => (cookie, none)
  if status = .completed then
    ({ step.1 with
        totalMessages := step.1.totalMessages + count,
        completedMessages := step.1.completedMessages ++ [fl.getD ""] }, step.2)
  else step

/-- Modelled from the claim text, not from the source: an edit is pushed iff
at least 3 seconds elapsed since the previous edit, or the event is a terminal
transition, or it is the very first `STARTING` event of the run (no edit
pushed yet). -/
def claimEditPushed (now : Nat) (cookie : Cookie) (status : FetchStatus) : Bool :=
  let elapsed := now - (cookie.lastEdit.getD cookie.start)
  decide (3000 ≤ elapsed) ||
    (match status with
      | .completed => true
      | .cancelled => true
      | .exception => true
      | .starting => cookie.lastEdit.isNone
      | .fetching => false)

/-! ## Theorems -/

/-! ### Cache lemmas -/

theorem oldestEntry_none {hs : Handles} (h : oldestEntry hs = none) : hs = [] := by
  cases hs with
  | nil => rfl
  | cons x rest =>
    cases hr : oldestEntry rest with
    | none => simp [oldestEntry, hr] at h
    | some a =>
      simp only [oldestEntry, hr] at h
      split at h <;> simp at h

theorem oldestEntry_mem : ∀ (hs : Handles) (e : String × Nat), oldestEntry hs = some e → e ∈ hs
  | [], e, h => by simp [oldestEntry] at h
  | x :: rest, e, h => by
    cases hr : oldestEntry rest with
    | none =>
      simp only [oldestEntry, hr] at h
      simp at h
      simp [h]
    | some a =>
      simp only [oldestEntry, hr] at h
      split at h
      · have ha : a = e := by injection h
        exact List.mem_cons_of_mem x (oldestEntry_mem rest e (ha ▸ hr))
      · have hx : x = e := by injection h
        simp [← hx]

theorem oldestEntry_min : ∀ (hs : Handles) (e : String × Nat), oldestEntry hs = some e →
    ∀ x ∈ hs, e.2 ≤ x.2
  | [], e, h => by simp [oldestEntry] at h
  | x :: rest, e, h => by
    intro y hy
    cases hr : oldestEntry rest with
    | none =>
      have hrest : rest = [] := oldestEntry_none hr
      subst hrest
      simp only [oldestEntry, hr] at h
      simp at h
      rcases List.mem_cons.mp hy with hyx | hyr
      · simp [← h, hyx]
      · simp at hyr
    | some a =>
      have hmin := oldestEntry_min rest a hr
      simp only [oldestEntry, hr] at h
      rcases List.mem_cons.mp hy with hyx | hyr
      · subst hyx
        split at h
        · have ha : a = e := by injection h
          subst ha
          omega
        · have hx : y = e := by injection h
          simp [hx]
      · have hay := hmin y hyr
        split at h
        · have ha : a = e := by injection h
          exact ha ▸ hay
        · have hx : x = e := by injection h
          rename_i hcond
          rw [← hx]
          omega

theorem removeKey_length {path : String} : ∀ {hs : Handles},
    (∃ e ∈ hs, e.1 = path) → (removeKey path hs).length + 1 = hs.length := by
  intro hs
  induction hs with
  | nil => rintro ⟨e, he, -⟩; simp at he
  | cons x rest ih =>
    rintro ⟨e, he, hk⟩
    by_cases hx : x.1 = path
    · simp [removeKey, hx]
    · rcases List.mem_cons.mp he with hex | her
      · exact absurd (hex ▸ hk) hx
      · simp only [removeKey, hx, if_false, List.length_cons]
        rw [ih ⟨e, her, hk⟩]

theorem lookupTime_some_mem {path : String} {t : Nat} : ∀ {hs : Handles},
    lookupTime path hs = some t → (path, t) ∈ hs := by
  intro hs
  induction hs with
  | nil => intro h; simp [lookupTime] at h
  | cons x rest ih =>
    intro h
    simp only [lookupTime] at h
    split at h
    · have ht : x.2 = t := by injection h
      rename_i hx
      have hxe : x = (path, t) := by cases x; simp_all
      rw [← hxe]
      exact List.mem_cons_self x rest
    · exact List.mem_cons_of_mem x (ih h)

theorem lookupTime_none_of_keys {path : String} : ∀ {hs : Handles},
    (∀ e ∈ hs, e.1 ≠ path) → lookupTime path hs = none := by
  intro hs
  induction hs with
  | nil => intro _; rfl
  | cons x rest ih =>
    intro h
    have hx : x.1 ≠ path := h x (List.mem_cons_self x rest)
    simp only [lookupTime, if_neg hx]
    exact ih (fun e he => h e (List.mem_cons_of_mem x he))

theorem lookupTime_append_none {path : String} {e : String × Nat} : ∀ {hs : Handles},
    lookupTime path hs = none → e.1 ≠ path → lookupTime path (hs ++ [e]) = none := by
  intro hs
  induction hs with
  | nil =>
    intro _ h2
    simpa [lookupTime] using fun h => absurd h h2
  | cons x rest ih =>
    intro h1 h2
    simp only [lookupTime] at h1 ⊢
    split at h1
    · simp at h1
    · rename_i hx
      rw [if_neg hx]
      exact ih h1 h2

/-- The not-cached branch of `gethandle` at capacity: the new size is back at
256, and the single evicted entry is a least-recently-active member. -/
theorem gethandle_fresh_at_capacity (fs : String → Bool) (t : Nat) (path : String) (hs : Handles)
    (h256 : hs.length = 256) (hnew : lookupTime path hs = none) :
    (gethandle fs t path hs).handles.length = 256 ∧
      ∃ old, (gethandle fs t path hs).evicted = [old] ∧ old ∈ hs ∧ ∀ e ∈ hs, old.2 ≤ e.2 := by
  simp only [gethandle, hnew]
  have hne : hs ≠ [] := by intro h; subst h; simp at h256
  obtain ⟨old, hold⟩ : ∃ old, oldestEntry hs = some old := by
    cases ho : oldestEntry hs with
    | none => exact absurd (oldestEntry_none ho) hne
    | some o => exact ⟨o, rfl⟩
  have hmem := oldestEntry_mem hs old hold
  have hcap : 256 ≤ hs.length := by omega
  simp only [gethandleNew, if_pos hcap, hold]
  have hlen : (removeKey old.1 hs).length + 1 = hs.length :=
    removeKey_length ⟨old, hmem, rfl⟩
  constructor
  · simp only [List.length_append, List.length_cons, List.length_nil]
    omega
  · exact ⟨old, rfl, hmem, oldestEntry_min hs old hold⟩

/-- Any single `gethandle` call preserves the 256 size bound. -/
theorem gethandle_size_le (fs : String → Bool) (t : Nat) (path : String) (hs : Handles)
    (hle : hs.length ≤ 256) : (gethandle fs t path hs).handles.length ≤ 256 := by
  cases hl : lookupTime path hs with
  | some t0 =>
    simp only [gethandle, hl]
    by_cases hfs : fs path
    · simpa [hfs] using hle
    · simp only [hfs, if_false, Bool.false_eq_true]
      have hrm : (removeKey path hs).length + 1 = hs.length :=
        removeKey_length ⟨(path, t0), lookupTime_some_mem hl, rfl⟩
      have hno : ¬ (256 ≤ (removeKey path hs).length) := by omega
      simp only [gethandleNew, if_neg hno]
      simp only [List.length_append, List.length_cons, List.length_nil]
      omega
  | none =>
    simp only [gethandle, hl]
    by_cases hcap : 256 ≤ hs.length
    · have h256 : hs.length = 256 := by omega
      have h := gethandle_fresh_at_capacity fs t path hs h256 hl
      simp only [gethandle, hl] at h
      exact le_of_eq h.1
    · simp only [gethandleNew, if_neg hcap]
      simp only [List.length_append, List.length_cons, List.length_nil]
      omega

/-- Acquiring fresh, pairwise-distinct paths below capacity just appends them
to the cache in order, with no eviction. -/
theorem acquireAll_fresh (fs : String → Bool) : ∀ (reqs : List (String × Nat)) (hs : Handles),
    (∀ r ∈ reqs, lookupTime r.1 hs = none) → (reqs.map Prod.fst).Nodup →
    hs.length + reqs.length ≤ 256 →
    acquireAll fs reqs hs = (hs ++ reqs, [])
  | [], hs, _, _, _ => by simp [acquireAll]
  | r :: rest, hs, hfresh, hnodup, hlen => by
    have h0 : lookupTime r.1 hs = none := hfresh r (List.mem_cons_self r rest)
    have hcap : ¬ (256 ≤ hs.length) := by
      simp only [List.length_cons] at hlen
      omega
    have hstep : gethandle fs r.2 r.1 hs = ⟨(r.1, r.2), hs ++ [(r.1, r.2)], []⟩ := by
      simp only [gethandle, h0, gethandleNew, if_neg hcap]
    have hnd1 : (rest.map Prod.fst).Nodup := (List.nodup_cons.mp hnodup).2
    have hhead : r.1 ∉ rest.map Prod.fst := (List.nodup_cons.mp hnodup).1
    have hfresh1 : ∀ x ∈ rest, lookupTime x.1 (hs ++ [r]) = none := by
      intro x hx
      refine lookupTime_append_none (hfresh x (List.mem_cons_of_mem r hx)) ?_
      intro hc
      exact hhead (hc ▸ List.mem_map_of_mem Prod.fst hx)
    have hlen1 : (hs ++ [r]).length + rest.length ≤ 256 := by
      simp only [List.length_append, List.length_cons, List.length_nil] at hlen ⊢
      omega
    have hrec := acquireAll_fresh fs rest (hs ++ [r]) hfresh1 hnd1 hlen1
    calc acquireAll fs (r :: rest) hs
        = acquireAll fs rest (hs ++ [r]) := by
          simp only [acquireAll, List.foldl_cons, hstep, Prod.mk.eta, List.nil_append]
      _ = (hs ++ r :: rest, []) := by rw [hrec]; simp

theorem acquireAll_snoc (fs : String → Bool) (reqs : List (String × Nat)) (r : String × Nat)
    (hs : Handles) :
    acquireAll fs (reqs ++ [r]) hs =
      ((gethandle fs r.2 r.1 (acquireAll fs reqs hs).1).handles,
        (acquireAll fs reqs hs).2 ++ (gethandle fs r.2 r.1 (acquireAll fs reqs hs).1).evicted) := by
  simp [acquireAll, List.foldl_append]

theorem pathName_inj : Function.Injective pathName := by
  intro i j h
  have := congrArg String.length h
  simpa [pathName, String.length] using this

theorem paths256_nodup : (paths256.map Prod.fst).Nodup := by
  have h : paths256.map Prod.fst = (List.range 256).map pathName := by
    rw [paths256, List.map_map]
    rfl
  rw [h]
  exact (List.nodup_range 256).map pathName_inj

theorem paths256_fresh : lookupTime (pathName 256) paths256 = none := by
  refine lookupTime_none_of_keys ?_
  intro e he
  simp only [paths256, List.mem_map, List.mem_range] at he
  obtain ⟨i, hi, rfl⟩ := he
  intro hc
  have := pathName_inj hc
  omega

theorem paths256_len : paths256.length = 256 := by
  simp [paths256]

/-! ### Claim theorems: the handle cache -/

/-- Claim C3: with the cache at its fixed capacity of 256 entries, acquiring a
not-yet-cached path evicts exactly one entry, and that entry has the least
recent activity time; the cache size never exceeds 256, and acquiring 257
distinct paths from an empty cache evicts exactly one entry. -/
theorem C3_cache_eviction :
    (∀ (fs : String → Bool) (t : Nat) (path : String) (hs : Handles),
        hs.length = 256 → lookupTime path hs = none →
        (gethandle fs t path hs).handles.length = 256 ∧
          ∃ old, (gethandle fs t path hs).evicted = [old] ∧ old ∈ hs ∧
            ∀ e ∈ hs, old.2 ≤ e.2) ∧
    (∀ (fs : String → Bool) (t : Nat) (path : String) (hs : Handles),
        hs.length ≤ 256 → (gethandle fs t path hs).handles.length ≤ 256) ∧
    (acquireAll (fun _ => true) (paths256 ++ [(pathName 256, 256)]) []).1.length = 256 ∧
    (acquireAll (fun _ => true) (paths256 ++ [(pathName 256, 256)]) []).2.length = 1 := by
  have hrun : acquireAll (fun _ => true) paths256 [] = ([] ++ paths256, []) :=
    acquireAll_fresh (fun _ => true) paths256 [] (fun r _ => rfl) paths256_nodup
      (by simp [paths256_len])
  have hfinal := gethandle_fresh_at_capacity (fun _ => true) 256 (pathName 256) paths256
    paths256_len paths256_fresh
  refine ⟨gethandle_fresh_at_capacity, gethandle_size_le, ?_, ?_⟩
  · rw [acquireAll_snoc, hrun]
    simpa using hfinal.1
  · rw [acquireAll_snoc, hrun]
    obtain ⟨old, hev, -, -⟩ := hfinal.2
    simpa using congrArg List.length hev

/-- Witness for C3: the first conjunct applied to the concrete 256-entry cache
`paths256` and the fresh path `pathName 256`. -/
theorem C3_cache_eviction_witness :
    (gethandle (fun _ => true) 256 (pathName 256) paths256).handles.length = 256 ∧
      ∃ old, (gethandle (fun _ => true) 256 (pathName 256) paths256).evicted = [old] ∧
        old ∈ paths256 ∧ ∀ e ∈ paths256, old.2 ≤ e.2 :=
  C3_cache_eviction.1 (fun _ => true) 256 (pathName 256) paths256 paths256_len paths256_fresh

/-- Claim C7: acquiring a cached path whose file has disappeared discards the
stale entry, opens a fresh handle on the same path, and returns it, with no
error surfaced (stale-close errors are swallowed by the source) and no
capacity eviction. -/
theorem C7_stale_handle_refresh (fs : String → Bool) (t : Nat) (path : String) (hs : Handles)
    (told : Nat) (hsz : hs.length ≤ 256) (hcached : lookupTime path hs = some told)
    (hgone : fs path = false) :
    gethandle fs t path hs = ⟨(path, t), removeKey path hs ++ [(path, t)], []⟩ := by
  simp only [gethandle, hcached, hgone, Bool.false_eq_true, if_false]
  have hrm : (removeKey path hs).length + 1 = hs.length :=
    removeKey_length ⟨(path, told), lookupTime_some_mem hcached, rfl⟩
  have hno : ¬ (256 ≤ (removeKey path hs).length) := by omega
  simp only [gethandleNew, if_neg hno]

/-- Witness for C7: a one-entry cache whose file is gone. -/
theorem C7_stale_handle_refresh_witness :
    gethandle (fun _ => false) 9 "a" [("a", 5)] =
      ⟨("a", 9), removeKey "a" [("a", 5)] ++ [("a", 9)], []⟩ :=
  C7_stale_handle_refresh (fun _ => false) 9 "a" [("a", 5)] 5 (by decide) (by decide) rfl

/-! ### Claim theorems: rotation naming -/

/-- Claim C1: for weekly rotation the prefix should be the Monday 00:00 UTC of
the timestamp's ISO week, ending in the P7D period marker, for every
timestamp.  This holds when the Monday falls in the same calendar month
(2018-08-15, a Wednesday, maps to 20180813--P7D), but when the Monday falls in
the previous month the source's `timestamp.replace(day=timestamp.day -
timestamp.weekday())` computes a non-positive day and raises `ValueError`
(modelled as `none`): 2018-08-01 is a Wednesday (weekday 2) whose week's
Monday is 2018-07-30, and the call fails instead of producing
`20180730--P7D`. -/
theorem C1_weekly_rotation_month_boundary :
    format_rotation_string ⟨2018, 8, 15, 12, 0, 0⟩ (some .w) none = some "20180813--P7D" ∧
    weekday ⟨2018, 8, 15, 12, 0, 0⟩ = 2 ∧
    weekday ⟨2018, 8, 1, 12, 0, 0⟩ = 2 ∧
    format_rotation_string ⟨2018, 8, 1, 12, 0, 0⟩ (some .w) none = none := by decide

/-! ### Claim theorems: attachment file names -/

theorem pySliceTo_nat (s : List Char) (a : Nat) (h : a ≤ s.length) :
    pySliceTo s (a : Int) = s.take a := by
  simp only [pySliceTo, pyIdx]
  rw [if_neg (by omega)]
  have h1 : (a : Int).toNat = a := rfl
  rw [h1, Nat.min_eq_left h]

theorem pySliceFrom_neg (s : List Char) (b : Nat) (hb : 1 ≤ b) :
    pySliceFrom s (-(b : Int)) = s.drop (s.length - b) := by
  simp only [pySliceFrom, pyIdx]
  rw [if_pos (by omega)]
  congr 1
  omega

set_option maxRecDepth 4000 in
/-- Counterexample to claim C2 as stated: for the id `A1` and a 300-character
name the surviving budget is 249 (odd), and the source gives the extra
character to the suffix (124 kept at the front, 125 at the back), not to the
head kept from the original name as the claim demands. -/
theorem C2_split_counterexample :
    attachmentFileName ("A1".toList) (List.replicate 300 'x') =
      ("A1".toList ++ ['_'] ++ List.replicate 124 'x' ++ ['.', '.', '.'] ++
        List.replicate 125 'x', true) ∧
    (attachmentFileName ("A1".toList) (List.replicate 300 'x')).1 ≠
      claimLeftFavoredName ("A1".toList) (List.replicate 300 'x') := by decide

/-- Claim C2 (amended): a derived name of at most 255 characters is returned
unmodified with the flag unset; a longer one (for an id of at most 250
characters) is truncated to exactly 255 characters of the form
id, underscore, a head of the original name, a three-dot ellipsis, and a tail
of the original name, where head and tail split the surviving budget
`251 - len(id)` as evenly as possible with the tail (not the head) receiving
the extra character when the budget is odd, and the flag is set. -/
theorem C2_attachment_name_truncation (aid aname : List Char) (hid : aid.length ≤ 250) :
    (aid.length + 1 + aname.length ≤ 255 →
      attachmentFileName aid aname = (aid ++ ['_'] ++ aname, false)) ∧
    (255 < aid.length + 1 + aname.length →
      ∃ a b : Nat,
        attachmentFileName aid aname =
          (aid ++ ['_'] ++ aname.take a ++ ['.', '.', '.'] ++
            aname.drop (aname.length - b), true) ∧
        a + b = 251 - aid.length ∧
        ((251 - aid.length) % 2 = 0 → b = a) ∧
        ((251 - aid.length) % 2 = 1 → b = a + 1) ∧
        (attachmentFileName aid aname).1.length = 255) := by
  have hflen : (aid ++ ['_'] ++ aname).length = aid.length + 1 + aname.length := by
    simp [List.length_append]
    omega
  constructor
  · intro hle
    simp only [attachmentFileName]
    rw [if_neg (by rw [hflen]; omega)]
  · intro hgt
    set T := 251 - aid.length with hT
    set A := T / 2 with hA
    set B := T - A with hB
    have hT1 : 1 ≤ T := by omega
    have hB1 : 1 ≤ B := by omega
    have hAle : A ≤ aname.length := by omega
    have hBle : B ≤ aname.length := by omega
    have htarget : (255 : Int) - (aid.length : Int) - 4 = (T : Int) := by
      omega
    have hfd : Int.fdiv ((255 : Int) - (aid.length : Int) - 4) 2 = (A : Int) := by
      rw [htarget]
      exact (Int.ofNat_fdiv T 2).symm
    have harg : (255 : Int) - (aid.length : Int) - 4 - (A : Int) = (B : Int) := by
      rw [htarget]
      omega
    have heq : attachmentFileName aid aname =
        (aid ++ ['_'] ++ aname.take A ++ ['.', '.', '.'] ++
          aname.drop (aname.length - B), true) := by
      simp only [attachmentFileName]
      rw [if_pos (by rw [hflen]; omega)]
      rw [hfd, harg, pySliceTo_nat aname A hAle, pySliceFrom_neg aname B hB1]
    refine ⟨A, B, heq, by omega, by omega, by omega, ?_⟩
    rw [heq]
    simp only [List.length_append, List.length_take, List.length_cons, List.length_nil,
      List.length_drop]
    omega

/-- Witness for C2: the unmodified branch at a concrete short name. -/
theorem C2_attachment_name_truncation_witness :
    attachmentFileName ("A1".toList) ("a".toList) = ("A1".toList ++ ['_'] ++ "a".toList, false) :=
  (C2_attachment_name_truncation ("A1".toList) ("a".toList) (by decide)).1 (by decide)

/-! ### Claim theorems: the write gate -/

/-- When the rotation replace succeeds (or rotation is off), the tail of `log`
appends exactly one line. -/
theorem logFinish_ok (fs : String → Bool) (now : Nat) (st : LoggerState) (text : String)
    (timestamp : PyDateTime) (subfolder : Option String) (path0 entry1 : List String)
    (hrot : rotationOk st.settings timestamp = true) :
    ∃ st2 p l, logFinish fs now st text timestamp subfolder path0 entry1 = .ok st2 [(p, l)] := by
  simp only [logFinish]
  cases hro : st.settings.rotation with
  | none => exact ⟨_, _, _, rfl⟩
  | some code =>
    simp only [rotationOk, hro] at hrot
    obtain ⟨start, hstart⟩ := Option.isSome_iff_exists.mp hrot
    simp only [format_rotation_string, hstart]
    exact ⟨_, _, _, rfl⟩

/-- Counterexample to claim C2's sibling C4 as stated: with the unload lock
set, a forced log call on a recognised server location appends nothing; and
with weekly rotation configured and a timestamp whose week's Monday falls in
the previous month, a forced log call raises instead of appending. -/
theorem C4_gating_counterexample :
    log (fun _ => true) 0 lockedState (.server "s") "hi" ⟨2018, 8, 15, 1, 2, 3⟩ true none =
      .ok lockedState [] ∧
    log (fun _ => true) 0 weeklyState (.server "s") "hi" ⟨2018, 8, 1, 1, 2, 3⟩ true none =
      .error := by decide

/-- Claim C4 (amended): provided the instance is not locked, `log` performs no
side effect when neither `force` nor the policy predicate (which subsumes the
`everything` override) approves; and when one of them holds, the location is a
recognised target kind, and the rotation prefix computation succeeds for the
timestamp, exactly one formatted entry is appended. -/
theorem C4_log_gating (fs : String → Bool) (now : Nat) (st : LoggerState) (location : Location)
    (text : String) (timestamp : PyDateTime) (force : Bool) (subfolder : Option String)
    (hlock : st.lock = false) :
    (force = false → should_log st.settings location = false →
      log fs now st location text timestamp force subfolder = .ok st []) ∧
    ((force || should_log st.settings location) = true → recognized location = true →
      rotationOk st.settings timestamp = true →
      ∃ st2 path line,
        log fs now st location text timestamp force subfolder = .ok st2 [(path, line)]) := by
  constructor
  · intro hf hsl
    simp [log, hlock, hf, hsl]
  · intro hcond hrec hrot
    simp only [log, hlock, hcond, Bool.not_true, Bool.or_false, Bool.false_or, if_false]
    cases location with
    | other => simp [recognized] at hrec
    | server id => exact logFinish_ok fs now st text timestamp subfolder _ _ hrot
    | channel id name serverId kind =>
      exact logFinish_ok fs now st text timestamp subfolder _ _ hrot
    | privateChannel id => exact logFinish_ok fs now st text timestamp subfolder _ _ hrot

/-- Witness for C4: a forced write on an unlocked state with default settings
appends exactly one entry. -/
theorem C4_log_gating_witness :
    ∃ st2 path line,
      log (fun _ => true) 0 ⟨emptySettings, false, []⟩ (.server "s") "hi"
        ⟨2018, 8, 15, 1, 2, 3⟩ true none = .ok st2 [(path, line)] :=
  (C4_log_gating (fun _ => true) 0 ⟨emptySettings, false, []⟩ (.server "s") "hi"
    ⟨2018, 8, 15, 1, 2, 3⟩ true none rfl).2 rfl rfl rfl

/-- Claim C10: once the unload lock is set, every `log` call returns with no
write and no state change, for every location, text, timestamp and options,
including calls with `force` set. -/
theorem C10_lock_blocks_forced_log (fs : String → Bool) (now : Nat) (st : LoggerState)
    (location : Location) (text : String) (timestamp : PyDateTime) (force : Bool)
    (subfolder : Option String) (hlock : st.lock = true) :
    log fs now st location text timestamp force subfolder = .ok st [] := by
  simp [log, hlock]

/-- Witness for C10: a forced call on a locked state writes nothing. -/
theorem C10_lock_blocks_forced_log_witness :
    log (fun _ => true) 0 lockedState (.server "s") "x" ⟨2020, 1, 1, 0, 0, 0⟩ true none =
      .ok lockedState [] :=
  C10_lock_blocks_forced_log (fun _ => true) 0 lockedState (.server "s") "x"
    ⟨2020, 1, 1, 0, 0, 0⟩ true none rfl

/-! ### Claim theorems: the backfill crawler -/

/-- Claim C5: a channel whose history yields five events and then an empty
page ends in `COMPLETED` with count 5: the trace is the `STARTING` update,
five `FETCHING` updates (counts 0..4, emitted before the increment), and the
`COMPLETED` update with count 5, and exactly two pages are requested — none
after the empty one. -/
theorem C5_empty_page_completes {ε : Type} (e1 e2 e3 e4 e5 : ε) :
    fetch_task (fivePages e1 e2 e3 e4 e5) (fun _ => false) 3 [0] 0 [] 0 =
      some ([⟨0, .starting, 0⟩, ⟨0, .fetching, 0⟩, ⟨1, .fetching, 0⟩, ⟨2, .fetching, 0⟩,
        ⟨3, .fetching, 0⟩, ⟨4, .fetching, 0⟩, ⟨5, .completed, 0⟩], 2) := rfl

/-- Claim C6: over two channels, a cancellation signal firing after two events
of the first channel produces a trace ending in `CANCELLED` with the partial
count 2; nothing follows the cancellation update, so the second channel is
never started. -/
theorem C6_cancellation_stops_run {ε : Type} (e1 e2 e3 e4 e5 : ε) :
    fetch_task (fivePages e1 e2 e3 e4 e5) (fun total => decide (2 ≤ total)) 3 [0, 1] 0 [] 0 =
      some ([⟨0, .starting, 0⟩, ⟨0, .fetching, 0⟩, ⟨1, .fetching, 0⟩, ⟨2, .cancelled, 0⟩], 1) :=
  rfl

/-! ### Claim theorems: attachment fetching -/

theorem dlPath_ne_dir (dirPath filename : String) : dirPath ++ "/" ++ filename ≠ dirPath := by
  intro h
  have hlen := congrArg String.length h
  rw [String.length_append, String.length_append] at hlen
  have h1 : "/".length = 1 := rfl
  omega

/-- Claim C8: attachment fetching is idempotent per final file name.  If the
target file exists (with its directory), the call changes nothing and performs
no transfer; if it does not, the call performs exactly one transfer, its
operations end with transfer, temp-file write, then rename onto the final
name (preceded at most by the directory creation), and a second call for the
same final name is a no-op. -/
theorem C8_attachment_fetch_idempotent (fs : List String) (url dirPath aid filename : String) :
    ((dirPath ++ "/" ++ filename) ∈ fs → dirPath ∈ fs →
      fetchAttachment fs url dirPath aid filename = (fs, [])) ∧
    ((dirPath ++ "/" ++ filename) ∉ fs →
      transferCount (fetchAttachment fs url dirPath aid filename).2 = 1 ∧
      (∃ pre, (fetchAttachment fs url dirPath aid filename).2 =
          pre ++ [FsOp.transfer url, FsOp.writeTmp (dirPath ++ "/" ++ aid ++ ".tmp"),
            FsOp.rename (dirPath ++ "/" ++ aid ++ ".tmp") (dirPath ++ "/" ++ filename)] ∧
          (pre = [] ∨ pre = [FsOp.mkdir dirPath])) ∧
      fetchAttachment (fetchAttachment fs url dirPath aid filename).1 url dirPath aid
        filename = ((fetchAttachment fs url dirPath aid filename).1, [])) := by
  constructor
  · intro hdl hdir
    simp only [fetchAttachment, if_pos hdir]
    rw [if_pos hdl]
  · intro hdl
    by_cases hdir : dirPath ∈ fs
    · have h1 : fetchAttachment fs url dirPath aid filename =
          ((dirPath ++ "/" ++ filename) :: fs,
            [FsOp.transfer url, FsOp.writeTmp (dirPath ++ "/" ++ aid ++ ".tmp"),
              FsOp.rename (dirPath ++ "/" ++ aid ++ ".tmp") (dirPath ++ "/" ++ filename)]) := by
        simp only [fetchAttachment, if_pos hdir]
        rw [if_neg hdl, List.erase_cons_head]
        simp
      refine ⟨by rw [h1]; rfl, ⟨[], by rw [h1]; rfl, Or.inl rfl⟩, ?_⟩
      rw [h1]
      have hdir2 : dirPath ∈ (dirPath ++ "/" ++ filename) :: fs :=
        List.mem_cons_of_mem _ hdir
      have hdl2 : (dirPath ++ "/" ++ filename) ∈ (dirPath ++ "/" ++ filename) :: fs :=
        List.mem_cons_self _ _
      simp only [fetchAttachment, if_pos hdir2]
      rw [if_pos hdl2]
    · have h1 : fetchAttachment fs url dirPath aid filename =
          ((dirPath ++ "/" ++ filename) :: dirPath :: fs,
            [FsOp.mkdir dirPath, FsOp.transfer url,
              FsOp.writeTmp (dirPath ++ "/" ++ aid ++ ".tmp"),
              FsOp.rename (dirPath ++ "/" ++ aid ++ ".tmp") (dirPath ++ "/" ++ filename)]) := by
        simp only [fetchAttachment, if_neg hdir]
        have hne : (dirPath ++ "/" ++ filename) ∉ dirPath :: fs := by
          simp only [List.mem_cons, not_or]
          exact ⟨dlPath_ne_dir dirPath filename, hdl⟩
        rw [if_neg hne, List.erase_cons_head]
        simp
      refine ⟨by rw [h1]; rfl, ⟨[FsOp.mkdir dirPath], by rw [h1]; rfl, Or.inr rfl⟩, ?_⟩
      rw [h1]
      have hdir2 : dirPath ∈ (dirPath ++ "/" ++ filename) :: dirPath :: fs :=
        List.mem_cons_of_mem _ (List.mem_cons_self _ _)
      have hdl2 : (dirPath ++ "/" ++ filename) ∈ (dirPath ++ "/" ++ filename) :: dirPath :: fs :=
        List.mem_cons_self _ _
      simp only [fetchAttachment, if_pos hdir2]
      rw [if_pos hdl2]

/-- Witness for C8: a fresh fetch into an empty file system transfers once,
and repeating it is a no-op. -/
theorem C8_attachment_fetch_idempotent_witness :
    transferCount (fetchAttachment [] "u" "d" "a" "f").2 = 1 ∧
      fetchAttachment (fetchAttachment [] "u" "d" "a" "f").1 "u" "d" "a" "f" =
        ((fetchAttachment [] "u" "d" "a" "f").1, []) := by
  obtain ⟨h1, -, h3⟩ := (C8_attachment_fetch_idempotent [] "u" "d" "a" "f").2 (by simp)
  exact ⟨h1, h3⟩

/-! ### Claim theorems: progress-edit throttling -/

/-- Counterexample to claim C9 as stated: a `STARTING` update that is not the
first of the run (an edit was pushed 0 ms ago) still pushes an edit, though
the claim allows only the very first `STARTING`; and a `FETCHING` update at
exactly 3000 ms pushes no edit, though the claim requires one at "at least 3
seconds". -/
theorem C9_throttling_counterexample :
    ((fetch_callback 5 ⟨0, some 5, 0, []⟩ [] 1 .starting none "general").2.isSome = true ∧
      claimEditPushed 5 ⟨0, some 5, 0, []⟩ .starting = false) ∧
    ((fetch_callback 3000 ⟨0, none, 0, []⟩ [] 1 .fetching none "general").2.isSome = false ∧
      claimEditPushed 3000 ⟨0, none, 0, []⟩ .fetching = true) := by decide

/-- Claim C9 (amended): a status edit is pushed if and only if the event is a
`STARTING` event of a channel (any channel, not only the first), a terminal
transition (`COMPLETED`, `CANCELLED`, `EXCEPTION`), or a `FETCHING` event with
strictly more than 3 seconds elapsed since the previous edit (or the run start
when no edit has been pushed yet). -/
theorem C9_edit_throttling (now : Nat) (cookie : Cookie) (pendingNames : List String)
    (count : Nat) (exc : Option (String × String)) (channelName : String)
    (status : FetchStatus) :
    (fetch_callback now cookie pendingNames count status exc channelName).2.isSome = true ↔
      (status = .starting ∨ status = .completed ∨ status = .cancelled ∨ status = .exception ∨
        (status = .fetching ∧ 3000 < now - (cookie.lastEdit.getD cookie.start))) := by
  cases status with
  | starting => simp [fetch_callback, format_fetch_line]
  | completed => simp [fetch_callback, format_fetch_line]
  | cancelled => simp [fetch_callback, format_fetch_line]
  | exception => cases exc <;> simp [fetch_callback, format_fetch_line]
  | fetching =>
    simp only [fetch_callback, format_fetch_line]
    by_cases h : 3000 < now - (cookie.lastEdit.getD cookie.start)
    · simp [h]
    · simp [h]

end ActivityLog
